import Mathlib

/-!
Verification of the PyXenaValkyrie protocol/transport core.

The definitions below are shallow embeddings of the Python source:
  * `xenavalkyrie/xena_port.py`   — stream creation / tpld-id allocation,
    config-file loading, capture fetch and hex-dump formatting, tpld cache;
  * `xenavalkyrie/api/BaseSocket.py` — the socket read loop with retries;
  * `xenamanager/xena_object.py`  — address-prefix build / strip and
    state polling;
  * `xenavalkyrie/xena_tshark.py` — the external text-to-pcap invocation.

Strings are modelled with Lean `String`/`List Char`; device and socket
interaction is modelled by passing the device's replies (or read results)
explicitly.
-/

namespace Xena

/-! ## Tpld-id allocation (`XenaPort.add_stream`, xena_port.py lines 120-126)

Python:
```
tpld_id = tpld_id if tpld_id else XenaStream.next_tpld_id
stream.set_attributes(ps_comment=..., ps_tpldid=tpld_id)
XenaStream.next_tpld_id = max(XenaStream.next_tpld_id + 1, tpld_id + 1)
```
`tpld_id if tpld_id else ...` uses Python truthiness: both `None` and `0`
fall back to the class counter.  The model takes the current counter and
the optional requested id, and returns the assigned id and the new counter.
-/

/-- One `add_stream` call, restricted to its tpld-id effect: given the
current `XenaStream.next_tpld_id` counter and the optional `tpld_id`
argument, returns `(assigned id, new counter)`. -/
def add_stream_tpld (counter : Nat) (tpld_id : Option Nat) : Nat × Nat :=
  let t : Nat :=
    match tpld_id with
    | some r => if r ≠ 0 then r else counter
    | none => counter
  (t, max (counter + 1) (t + 1))

/-- Run a sequence of `add_stream` calls from an initial counter, returning
the list of assigned tpld ids and the final counter. -/
def add_streams (counter : Nat) : List (Option Nat) → List Nat × Nat
  | [] => ([], counter)
  | req :: rest =>
      let r := add_stream_tpld counter req
      let rec' := add_streams r.2 rest
      (r.1 :: rec'.1, rec'.2)

/-! ## Capture fetch range (`XenaCapture.get_packets`, xena_port.py line 351)

Python: `to_index = to_index if to_index else len(self.packets)` followed by
`for index in range(from_index, to_index)`.  Again Python truthiness:
`to_index=0` falls back to the packet count. -/

/-- The packet-index range read by `get_packets`, as a list of indices:
`range(from_index, to_index)` with the truthy default for `to_index`. -/
def get_packets_range (from_index : Nat) (to_index : Option Nat)
    (numPackets : Nat) : List Nat :=
  let to_i : Nat :=
    match to_index with
    | some t => if t ≠ 0 then t else numPackets
    | none => numPackets
  List.range' from_index (to_i - from_index)

/-! ## Config loading (`XenaPort.load_config`, xena_port.py lines 80-94)

Python:
```
for command in commands:
    if not command.startswith(';'):
        try:
            self.send_command(command)
        except XenaCommandError as e:
            self.logger.warning(str(e))
```
The device is modelled as a predicate `reject` telling which commands it
rejects with `XenaCommandError`.  The model returns the commands attempted
(sent to the device) in order and the failures that were logged; it is a
total function, i.e. loading always returns without raising. -/

/-- Python `command.startswith(';')`. -/
def startsWithSemi (s : String) : Bool :=
  match s.data with
  | ';' :: _ => true
  | _ => false

/-- `load_config` over the list of file lines: returns
`(attempted commands in order, logged failures in order)`. -/
def load_config (reject : String → Bool) : List String → List String × List String
  | [] => ([], [])
  | cmd :: rest =>
      if startsWithSemi cmd then load_config reject rest
      else
        let r := load_config reject rest
        (cmd :: r.1, (if reject cmd then [cmd] else []) ++ r.2)

/-! ## External converter (`Tshark.text_to_pcap`, xena_tshark.py lines 22-28,
and the pcap branch of `XenaCapture.get_packets`, xena_port.py lines 376-382)

Python `text_to_pcap` ends with `subprocess.call(text2pcap_call)`: the
return code of the external tool is discarded and the method returns
normally whatever the exit status.  (Contrast `Tshark.analyze`, which does
check `subprocess.call(...) > 0` and raises.)  The pcap branch of
`get_packets` calls `text_to_pcap` exactly once and does not inspect any
result. -/

/-- `Tshark.text_to_pcap` as a function of the external tool's exit code:
the exit code is ignored, the call always returns successfully. -/
def text_to_pcap (exitCode : Int) : Except String Unit :=
  let _ := exitCode
  Except.ok ()

/-- `Tshark.analyze`'s exit-status check (for contrast): raises on a
positive exit code. -/
def analyze_call_check (exitCode : Int) : Except String Unit :=
  if exitCode > 0 then Except.error "failed" else Except.ok ()

/-- The pcap branch of `get_packets`: one converter invocation whose result
is propagated as the operation's outcome; returns the outcome and the
number of converter invocations made. -/
def get_packets_pcap (exitCode : Int) : Except String Unit × Nat :=
  (text_to_pcap exitCode, 1)

/-! ## Tpld cache (`XenaPort.tplds`, xena_port.py lines 265-276)

Python:
```
# As TPLDs are dynamic we must re-read them each time from the port.
self.parent.del_objects_by_type('tpld')
for tpld in self.get_attribute('pr_tplds').split():
    XenaTpld(parent=self, index='{}/{}'.format(self.index, tpld))
return {t.id: t for t in self.get_objects_by_type('tpld')}
```
The cache primitives live in the external `trafficgenerator.tgn_object`
package, so they are modelled from the spec. -/

/-- Modelled from the spec: a `TgnObject` node's cache of children.  Spec
§4.4: each node lazily holds its child objects; a child created with a
given parent is inserted into that parent's cache; collections are
"the cache keyed by child `id`".  A child is recorded as
`(objType, id)`. -/
structure CacheNode where
  objects : List (String × Nat)
deriving DecidableEq

/-- Modelled from the spec: `del_objects_by_type` removes the node's own
cached children of the given type (spec §3: "removes them from the
parent's cache"). -/
def del_objects_by_type (n : CacheNode) (t : String) : CacheNode :=
  ⟨n.objects.filter (fun o => o.1 ≠ t)⟩

/-- Modelled from the spec: the node's cached children of one type. -/
def get_objects_by_type (n : CacheNode) (t : String) : List (String × Nat) :=
  n.objects.filter (fun o => o.1 = t)

/-- The `XenaPort.tplds` property.  `port` is the port's own cache,
`parentNode` the cache of the port's parent (module/chassis), and
`pr_tplds` the tpld ids in the device's `pr_tplds` reply.  Returns the
updated port cache, the updated parent cache, and the ids of the returned
tpld collection.  Note the source deletes type `tpld` from `self.parent`,
while new `XenaTpld` children are registered on `self` (the port). -/
def tplds (port parentNode : CacheNode) (pr_tplds : List Nat) :
    CacheNode × CacheNode × List Nat :=
  let parent2 := del_objects_by_type parentNode "tpld"
  let port2 : CacheNode := ⟨port.objects ++ pr_tplds.map (fun i => ("tpld", i))⟩
  (port2, parent2, (get_objects_by_type port2 "tpld").map (fun o => o.2))

/-! ## State polling (`XenaObject.wait_for_states`, xena_object.py lines 84-90)

Python:
```
for _ in range(timeout):
    if self.get_attribute(attribute).lower() in [s.lower() for s in states]:
        return
    time.sleep(1)
raise TgnError('{} failed to reach state {}, state is {} after {} seconds'.
               format(attribute, states, self.get_attribute(attribute), timeout))
```
The attribute source is modelled as `getAttr : Nat → String` giving the
value returned by the n-th `get_attribute` call (0-based).  The model
counts the calls made. -/

/-- Python `str.lower()` (ASCII). -/
def pyLower (s : String) : String := ⟨s.data.map Char.toLower⟩

/-- Payload of the `TgnError` raised on timeout: attribute name, expected
states, last observed state, elapsed seconds. -/
structure StateTimeoutErr where
  attrName : String
  states : List String
  lastState : String
  seconds : Nat
deriving DecidableEq

/-- The polling loop body: `calls` counts `get_attribute` calls so far,
the `Nat` argument is the remaining loop iterations.  Returns whether a
matching state was observed, together with the updated call count. -/
def waitLoop (getAttr : Nat → String) (states : List String) (calls : Nat) :
    Nat → Bool × Nat
  | 0 => (false, calls)
  | n + 1 =>
      if (states.map pyLower).contains (pyLower (getAttr calls)) then
        (true, calls + 1)
      else waitLoop getAttr states (calls + 1) n

/-- `wait_for_states`: returns the outcome (success, or the raised
`TgnError` payload) and the total number of `get_attribute` calls made. -/
def wait_for_states (attrName : String) (getAttr : Nat → String)
    (timeout : Nat) (states : List String) :
    Except StateTimeoutErr Unit × Nat :=
  match waitLoop getAttr states 0 timeout with
  | (true, c) => (Except.ok (), c)
  | (false, c) =>
      (Except.error ⟨attrName, states, getAttr c, timeout⟩, c + 1)

/-! ## Socket read loop (`BaseSocket.readReply`, BaseSocket.py lines 64-82)

Python:
```
if not self.connected:
    raise socket.error("readReply() on a disconnected socket")
retries = 5
for i in range(1, retries):
    try:
        reply = self.sock.recv(1024)
        if reply.find(b'---^') != -1 or reply.find(b'^---') != -1:
            # read next line for actual message
            reply = self.sock.recv(1024)
        break
    except Exception as error:
        if i == retries-1:
            self.disconnect()
            raise IOError(...)
...
return str_reply
```
Each underlying `recv` is modelled as the next element of a list of read
results; `ReadRes.err` is a read that raises.  Note `range(1, 5)` iterates
`i = 1, 2, 3, 4`. -/

/-- Result of one underlying socket read. -/
inductive ReadRes where
  | ok (payload : String)
  | err
deriving DecidableEq

/-- The `retries` constant of `readReply`. -/
def retries : Nat := 5

/-- `containsSub needle hay`: `needle` occurs as a contiguous substring of
`hay` (Python `bytes.find(...) != -1`). -/
def containsSub (needle : List Char) : List Char → Bool
  | [] => needle.isEmpty
  | c :: rest => needle.isPrefixOf (c :: rest) || containsSub needle rest

/-- The continuation-marker test:
`reply.find(b'---^') != -1 or reply.find(b'^---') != -1`. -/
def hasMarker (s : String) : Bool :=
  containsSub "---^".data s.data || containsSub "^---".data s.data

/-- One `try` block of the loop: consume reads, handling the continuation
marker; returns the outcome of the block and the reads left. -/
def tryRead : List ReadRes → Except Unit String × List ReadRes
  | [] => (Except.error (), [])
  | ReadRes.err :: rest => (Except.error (), rest)
  | ReadRes.ok r :: rest =>
      if hasMarker r then
        match rest with
        | [] => (Except.error (), [])
        | ReadRes.err :: rest2 => (Except.error (), rest2)
        | ReadRes.ok r2 :: rest2 => (Except.ok r2, rest2)
      else (Except.ok r, rest)

/-- The retry loop with `n` attempts remaining: on the last attempt's
failure, disconnect and raise.  Returns the outcome and the connection
flag afterwards. -/
def readAttempts : Nat → List ReadRes → Except Unit String × Bool
  | 0, _ => (Except.error (), false)
  | n + 1, reads =>
      match tryRead reads with
      | (Except.ok r, _) => (Except.ok r, true)
      | (Except.error _, rest) =>
          match n with
          | 0 => (Except.error (), false)
          | m + 1 => readAttempts (m + 1) rest

/-- `readReply`: `(result, connected-after)`.  `range(1, retries)` makes
`retries - 1` attempts. -/
def readReply (connected : Bool) (reads : List ReadRes) :
    Except Unit String × Bool :=
  if connected then readAttempts (retries - 1) reads
  else (Except.error (), false)

/-! ## Address codec (`XenaObject`/`XenaObject21`, xena_object.py lines 99-124)

Python:
```
def _build_index_command(self, command, *arguments):
    return ('{} {}' + len(arguments) * ' {}').format(self.index, command, *arguments)

def _extract_return(self, command, index_command_value):
    return re.sub('{}\s*{}\s*'.format(self.index, command.upper()), '', index_command_value)
```
and for `XenaObject21` (index `module/port/sid`):
```
return ('{}/{} {} [{}]' + len(arguments) * ' {}').format(module, port, command, sid, *arguments)
return re.sub('{}/{}\s*{}\s*\[{}\]\s*'.format(module, port, command.upper(), sid), '', index_command_value)
```
The regex used by `_extract_return` always has the shape
`lit₀ \s* lit₁ \s* ... \s* litₖ \s*` once the interpolated parts are taken
as literals (faithful when they contain no regex metacharacters, which
holds for indices like `7` or `1/2/3` and commands like `P_RESET`).  The
model implements exactly this pattern family: a leading literal, then
`\s*`-separated literals, then a trailing `\s*`, with greedy backtracking
for each `\s*`, and `re.sub`'s leftmost, non-overlapping replacement of
every match by the empty string. -/

/-- Python's `\s` character class (ASCII). -/
def isWs (c : Char) : Bool :=
  c = ' ' || c = '\t' || c = '\n' || c = '\r' || c = '\x0b' || c = '\x0c'

/-- Match `\s* lit` at the head of `s` (greedy `\s*` with backtracking):
returns the remainder after the literal on success. -/
def wsStarLit (lit : List Char) : List Char → Option (List Char)
  | [] => if lit.isPrefixOf ([] : List Char) then some [] else none
  | c :: rest =>
      if isWs c then
        match wsStarLit lit rest with
        | some r => some r
        | none =>
            if lit.isPrefixOf (c :: rest) then some ((c :: rest).drop lit.length)
            else none
      else
        if lit.isPrefixOf (c :: rest) then some ((c :: rest).drop lit.length)
        else none

/-- Match the tail of the pattern: each remaining literal preceded by
`\s*`, then the final trailing `\s*`. -/
def matchRest : List (List Char) → List Char → Option (List Char)
  | [], s => some (s.dropWhile isWs)
  | l :: ls, s =>
      match wsStarLit l s with
      | some r => matchRest ls r
      | none => none

/-- Match the whole pattern `first \s* lits... \s*` at the head of `s`. -/
def matchAt (first : List Char) (lits : List (List Char)) (s : List Char) :
    Option (List Char) :=
  if first.isPrefixOf s then matchRest lits (s.drop first.length)
  else none

/-- `re.sub(pattern, '', s)` for the pattern family above: scan left to
right, delete each non-overlapping match. -/
def reSub (first : List Char) (lits : List (List Char)) : List Char → List Char
  | [] =>
      match matchAt first lits [] with
      | some _ => []
      | none => []
  | c :: rest =>
      match matchAt first lits (c :: rest) with
      | some r =>
          if h : r.length < (c :: rest).length then reSub first lits r
          else c :: reSub first lits rest
      | none => c :: reSub first lits rest
  termination_by s => s.length
  decreasing_by
    all_goals first
      | exact h
      | simp

/-- Does the pattern match at some position of `s`?  (`re.sub` changes
nothing exactly when this is false everywhere.) -/
def occursIn (first : List Char) (lits : List (List Char)) : List Char → Bool
  | [] => (matchAt first lits []).isSome
  | c :: rest => (matchAt first lits (c :: rest)).isSome || occursIn first lits rest

/-- Python `str.upper()` (ASCII). -/
def pyUpper (s : String) : String := ⟨s.data.map Char.toUpper⟩

/-- `XenaObject._build_index_command`:
`index ++ " " ++ command ++ " a0" ++ " a1" ++ ...`. -/
def build_index_command (index command : String) (args : List String) : String :=
  index ++ " " ++ command ++ String.join (args.map (fun a => " " ++ a))

/-- `XenaObject._extract_return` (single-segment variant):
`re.sub(index + "\s*" + command.upper() + "\s*", '', reply)`. -/
def extract_return (index command reply : String) : String :=
  ⟨reSub index.data [(pyUpper command).data] reply.data⟩

/-- `XenaObject21._build_index_command` (index `module/port/sid`):
`module/port command [sid] a0 a1 ...`. -/
def build_index_command21 (module port sid command : String)
    (args : List String) : String :=
  module ++ "/" ++ port ++ " " ++ command ++ " [" ++ sid ++ "]" ++
    String.join (args.map (fun a => " " ++ a))

/-- `XenaObject21._extract_return`:
`re.sub(module/port + "\s*" + command.upper() + "\s*" + "\[sid\]" + "\s*", '', reply)`. -/
def extract_return21 (module port sid command reply : String) : String :=
  ⟨reSub (module ++ "/" ++ port).data
    [(pyUpper command).data, ("[" ++ sid ++ "]").data] reply.data⟩

/-! ## Hex-dump formatting (`XenaCapture.get_packets`, xena_port.py lines 361-370)

Python:
```
text_packet = ''
for c, b in zip(range(len(raw_packet)), raw_packet):
    if c % 32 == 0:
        text_packet += '\n{:06x} '.format(int(c / 2))
    elif c % 2 == 0:
        text_packet += ' '
    text_packet += b
```
-/

/-- One lowercase hex digit (for `n < 16`). -/
def hexChar (n : Nat) : Char :=
  if n < 10 then Char.ofNat (48 + n) else Char.ofNat (87 + n)

/-- Lowercase hex digits of `n`, most significant first (`'{:x}'`). -/
def hexDigits (n : Nat) : List Char :=
  if n < 16 then [hexChar n]
  else hexDigits (n / 16) ++ [hexChar (n % 16)]
  termination_by n
  decreasing_by
    exact Nat.div_lt_self (by omega) (by omega)

/-- Python `'{:06x}'.format(n)`: lowercase hex, zero-padded to at least 6
characters. -/
def hex6 (n : Nat) : List Char :=
  List.replicate (6 - (hexDigits n).length) '0' ++ hexDigits n

/-- The body of the formatting loop, at running character index `c`. -/
def format_packet_aux : Nat → List Char → List Char
  | _, [] => []
  | c, b :: rest =>
      (if c % 32 == 0 then '\n' :: hex6 (c / 2) ++ [' ']
       else if c % 2 == 0 then [' ']
       else []) ++ b :: format_packet_aux (c + 1) rest

/-- The text-dump formatter applied to one raw hex payload. -/
def format_packet (raw : String) : String := ⟨format_packet_aux 0 raw.data⟩

/-- Split on `'\n'` (Python `str.split('\n')` semantics: a leading
newline yields a leading empty group). -/
def splitNl : List Char → List (List Char)
  | [] => [[]]
  | c :: rest =>
      if c = '\n' then [] :: splitNl rest
      else
        match splitNl rest with
        | g :: gs => (c :: g) :: gs
        | [] => [[c]]

/-- The byte pairs of a hex string: successive 2-character groups. -/
def pairs2 : List Char → List (List Char)
  | a :: b :: rest => [a, b] :: pairs2 rest
  | [a] => [[a]]
  | [] => []

/-- A character is an ASCII hex digit. -/
def isHexChar (c : Char) : Bool :=
  c.isDigit || ('a' ≤ c && c ≤ 'f') || ('A' ≤ c && c ≤ 'F')

/-- Characters that appear in real device indices and commands (letters,
digits, `_`, `/`): they are not whitespace and carry no regex meaning, so
the literal-pattern model of `re.sub` is faithful for them. -/
def isToken (c : Char) : Bool :=
  c.isAlphanum || c = '_' || c = '/'

/-- The formatting loop restricted to positions `1..31` inside one
32-character line (no newline can be emitted there): position `k` in the
line, remaining characters. -/
def lineAux : Nat → List Char → List Char
  | _, [] => []
  | k, b :: rest => (if k % 2 == 0 then [' '] else []) ++ b :: lineAux (k + 1) rest

/-- One dump line for the chunk starting at byte offset `16 * q`. -/
def dumpLine (q : Nat) (chunk : List Char) : List Char :=
  match chunk with
  | [] => []
  | b :: rest => hex6 (16 * q) ++ ' ' :: b :: lineAux 1 rest

/-- Chunked restatement of the formatter: one `'\n'`-prefixed line per
32-character chunk. -/
def dumpSpec (q : Nat) (l : List Char) : List Char :=
  if h : l = [] then []
  else '\n' :: dumpLine q (l.take 32) ++ dumpSpec (q + 1) (l.drop 32)
  termination_by l.length
  decreasing_by
    have := List.length_pos.mpr h
    simp only [List.length_drop]
    omega

/-- The dump's lines (excluding the empty segment before the leading
newline), one per 32-character chunk. -/
def specLines (q : Nat) (l : List Char) : List (List Char) :=
  if h : l = [] then []
  else dumpLine q (l.take 32) :: specLines (q + 1) (l.drop 32)
  termination_by l.length
  decreasing_by
    have := List.length_pos.mpr h
    simp only [List.length_drop]
    omega

/-- Join byte pairs with single spaces. -/
def joinPairs : List (List Char) → List Char
  | [] => []
  | [p] => p
  | p :: q :: ps => p ++ ' ' :: joinPairs (q :: ps)

/-- The characters contributed by the argument list to a built command:
`" a0" ++ " a1" ++ ...` (each argument preceded by one space). -/
def tailData (args : List String) : List Char :=
  (args.map (fun a => ' ' :: a.data)).flatten

/-- The space-joined argument tail `a0 ++ " " ++ a1 ++ ...`. -/
def joined_tail : List String → String
  | [] => ""
  | [a] => a
  | a :: b :: rest => a ++ " " ++ joined_tail (b :: rest)

/-! # Theorems -/

/-- C3 counterexample: with the process-wide counter starting at 0,
creating streams with explicit tpld ids 5, then 3, then one with no id
does not assign the third stream id 6; and an explicit-id call does not
set the counter to `max(counter, requestedId + 1)` (from counter 6,
requesting id 3 moves the counter to 7, not 6). -/
theorem c3_counterexample :
    (add_streams 0 [some 5, some 3, none]).1 ≠ [5, 3, 6]
    ∧ (add_stream_tpld 6 (some 3)).2 ≠ max 6 (3 + 1) := by
  decide

/-- C3 (amended): creating a stream advances the counter to
`max(counter + 1, assignedId + 1)`; from a fresh counter the sequence of
explicit ids 5, then 3, then no id assigns ids 5, 3, 7 (so 3 and 5 are not
reused) and leaves the counter at 8; the counter strictly increases on
every `add_stream` call. -/
theorem c3_tpld_alloc :
    add_streams 0 [some 5, some 3, none] = ([5, 3, 7], 8)
    ∧ (∀ (c : Nat) (req : Option Nat), c < (add_stream_tpld c req).2)
    ∧ (∀ (c : Nat) (req : Option Nat),
        (add_stream_tpld c req).2 = max (c + 1) ((add_stream_tpld c req).1 + 1)) := by
  refine ⟨by decide, ?_, ?_⟩
  · intro c req
    cases req with
    | none => simp [add_stream_tpld]
    | some r =>
        by_cases h : r = 0 <;> simp [add_stream_tpld, h]
  · intro c req
    cases req with
    | none => rfl
    | some r => rfl

/-- C10: an explicit tpld id 0 behaves exactly like no id (the stream gets
the current counter value), and `get_packets` with `to_index = 0` reads
`range(from_index, len(packets))`, not an empty range. -/
theorem c10_zero_is_absent :
    (∀ c : Nat, add_stream_tpld c (some 0) = add_stream_tpld c none
        ∧ (add_stream_tpld c (some 0)).1 = c)
    ∧ (∀ f n : Nat, get_packets_range f (some 0) n = get_packets_range f none n
        ∧ get_packets_range f (some 0) n = List.range' f (n - f)) := by
  refine ⟨fun c => ⟨rfl, rfl⟩, fun f n => ⟨rfl, rfl⟩⟩

/-- C6 counterexample: a converter exit code of 1 is non-zero, yet the
capture-export operation completes successfully instead of failing. -/
theorem c6_counterexample :
    (get_packets_pcap 1).1 = Except.ok () ∧ (1 : Int) ≠ 0 :=
  ⟨rfl, by decide⟩

/-- C6 (amended): the pcap export path ignores the external converter's
exit status entirely — the operation completes successfully for every exit
code — and the converter is invoked exactly once (not retried).  (By
contrast, `Tshark.analyze` does fail on a positive exit code.) -/
theorem c6_exit_status_ignored (code : Int) :
    (get_packets_pcap code).1 = Except.ok ()
    ∧ (get_packets_pcap code).2 = 1
    ∧ analyze_call_check 1 = Except.error "failed" :=
  ⟨rfl, rfl, rfl⟩

/-- C5: failing input for the stale-cache bug.  A port whose cache holds a
tpld with id 0 while the device's current `pr_tplds` list is `[1]`: the
source deletes tpld children from the port's *parent* instead of the port,
so the returned collection still contains id 0, which is absent from the
device's current list — contradicting the code's own comment
("we must re-read them each time from the port"). -/
theorem c5_stale_tpld_returned :
    (tplds ⟨[("tpld", 0)]⟩ ⟨[]⟩ [1]).2.2 = [0, 1]
    ∧ (0 : Nat) ∉ [1]
    ∧ (tplds ⟨[("tpld", 0)]⟩ ⟨[]⟩ [1]).1.objects = [("tpld", 0), ("tpld", 1)] := by
  refine ⟨rfl, by decide, rfl⟩

/-- Helper: the commands attempted by `load_config` are exactly the
non-comment lines, in file order. -/
theorem load_config_attempted (reject : String → Bool) :
    ∀ lines : List String,
      (load_config reject lines).1 = lines.filter (fun l => !startsWithSemi l)
  | [] => rfl
  | cmd :: rest => by
      by_cases h : startsWithSemi cmd <;>
        simp [load_config, h, load_config_attempted reject rest]

/-- C9: loading a config file skips `;`-prefixed lines, sends every other
line verbatim in file order, logs device rejections and continues, and
returns (totally) without raising; in particular the file
`;comment / P_RESET / bad_cmd` (with `bad_cmd` rejected) sends `P_RESET`,
attempts `bad_cmd`, logs it, and returns. -/
theorem c9_load_config (reject : String → Bool) (lines : List String) :
    (load_config reject lines).1 = lines.filter (fun l => !startsWithSemi l)
    ∧ load_config (fun c => c == "bad_cmd") [";comment", "P_RESET", "bad_cmd"]
        = (["P_RESET", "bad_cmd"], ["bad_cmd"]) := by
  refine ⟨load_config_attempted reject lines, by decide⟩

/-- Helper: if no call ever matches, the polling loop runs all its
iterations and reports failure, making one `get_attribute` call per
iteration. -/
theorem waitLoop_never (getAttr : Nat → String) (states : List String)
    (h : ∀ n, ((states.map pyLower).contains (pyLower (getAttr n))) = false) :
    ∀ (t c : Nat), waitLoop getAttr states c t = (false, c + t) := by
  intro t
  induction t with
  | zero => intro c; simp [waitLoop]
  | succ n ih =>
      intro c
      have hc := h c
      simp only [waitLoop, hc, Bool.false_eq_true, if_false]
      rw [ih (c + 1)]
      have : c + 1 + n = c + (n + 1) := by omega
      rw [this]

/-- Helper: the loop returns success right after the first matching call. -/
theorem waitLoop_first (getAttr : Nat → String) (states : List String)
    (m : Nat)
    (hbefore : ∀ n, n < m → ((states.map pyLower).contains (pyLower (getAttr n))) = false)
    (hm : ((states.map pyLower).contains (pyLower (getAttr m))) = true) :
    ∀ (t c : Nat), c ≤ m → m < c + t → waitLoop getAttr states c t = (true, m + 1) := by
  intro t
  induction t with
  | zero => intro c h1 h2; omega
  | succ n ih =>
      intro c h1 h2
      by_cases he : c = m
      · subst he
        simp only [waitLoop, hm, if_true]
      · have hc := hbefore c (by omega)
        simp only [waitLoop, hc, Bool.false_eq_true, if_false]
        exact ih (c + 1) (by omega) (by omega)

/-- C4: `wait_for_states` polls `get_attribute` once per loop iteration
with a case-insensitive comparison against the accepted states, returning
as soon as a match is observed (after the first matching call); if no call
within the timeout matches, it raises a `TgnError` carrying the attribute
name, the expected states, the last observed value, and the elapsed
seconds, having observed the attribute `timeout + 1` times — for
`timeout = 3`, between 2 and 4 times, i.e. 3 ± 1. -/
theorem c4_wait_for_states (attrName : String) (getAttr : Nat → String)
    (timeout : Nat) (states : List String) :
    ((∀ n, ((states.map pyLower).contains (pyLower (getAttr n))) = false) →
        wait_for_states attrName getAttr timeout states
          = (Except.error ⟨attrName, states, getAttr timeout, timeout⟩, timeout + 1)
        ∧ (timeout = 3 →
            2 ≤ (wait_for_states attrName getAttr timeout states).2
            ∧ (wait_for_states attrName getAttr timeout states).2 ≤ 4))
    ∧ (∀ m, m < timeout →
        (∀ n, n < m → ((states.map pyLower).contains (pyLower (getAttr n))) = false) →
        ((states.map pyLower).contains (pyLower (getAttr m))) = true →
        wait_for_states attrName getAttr timeout states = (Except.ok (), m + 1)) := by
  constructor
  · intro h
    have hl := waitLoop_never getAttr states h timeout 0
    have hmain : wait_for_states attrName getAttr timeout states
        = (Except.error ⟨attrName, states, getAttr timeout, timeout⟩, timeout + 1) := by
      unfold wait_for_states
      rw [hl]
      simp only [Nat.zero_add]
    refine ⟨hmain, ?_⟩
    intro h3
    rw [hmain, h3]
    exact ⟨by omega, by omega⟩
  · intro m hm hbefore hmatch
    have hl := waitLoop_first getAttr states m hbefore hmatch timeout 0 (by omega) (by omega)
    unfold wait_for_states
    rw [hl]

/-- C4 witness: a source that never reports `IN_SYNC`, polled with
`timeout = 3`, raises the timeout error with all its fields after 4
observations. -/
theorem c4_wait_for_states_witness :
    wait_for_states "p_receivesync" (fun _ => "NO_SYNC") 3 ["IN_SYNC"]
      = (Except.error ⟨"p_receivesync", ["IN_SYNC"], "NO_SYNC", 3⟩, 4) :=
  ((c4_wait_for_states "p_receivesync" (fun _ => "NO_SYNC") 3 ["IN_SYNC"]).1
    (fun _ => by decide)).1

/-- C2 counterexample: a read source that fails exactly 4 times (4 < 5)
and then succeeds: `readReply` raises and disconnects instead of
returning the successful payload, because `range(1, 5)` only makes 4
attempts. -/
theorem c2_counterexample :
    readReply true
        [ReadRes.err, ReadRes.err, ReadRes.err, ReadRes.err, ReadRes.ok "payload"]
      = (Except.error (), false)
    ∧ (4 : Nat) < 5 :=
  ⟨rfl, by decide⟩

/-- C2 (amended): `readReply` makes up to `retries - 1 = 4` read attempts:
if the underlying read fails exactly `k < 4` times and then succeeds with a
marker-free payload, it returns that payload with the transport still
connected; if the read fails 4 times (hence also whenever it would fail 5
times), it raises and the transport reports disconnected. -/
theorem c2_read_retry_budget (k : Nat) (s : String) (rest : List ReadRes)
    (hk : k < retries - 1) (hs : hasMarker s = false) :
    readReply true (List.replicate k ReadRes.err ++ [ReadRes.ok s])
      = (Except.ok s, true)
    ∧ readReply true (List.replicate (retries - 1) ReadRes.err ++ rest)
      = (Except.error (), false) := by
  constructor
  · have hk4 : k < 4 := by simpa [retries] using hk
    interval_cases k <;>
      simp [readReply, retries, readAttempts, tryRead, hs, List.replicate]
  · simp [readReply, retries, readAttempts, tryRead, List.replicate]

/-- C2 witness: one failure then a success returns the payload connected;
instantiated from the amended theorem at `k = 1`, `s = "OK"`. -/
theorem c2_read_retry_budget_witness :
    1 < retries - 1 ∧ hasMarker "OK" = false
    ∧ readReply true [ReadRes.err, ReadRes.ok "OK"] = (Except.ok "OK", true)
    ∧ readReply true
        [ReadRes.err, ReadRes.err, ReadRes.err, ReadRes.err, ReadRes.err]
      = (Except.error (), false) := by
  have h := c2_read_retry_budget 1 "OK" [ReadRes.err] (by decide) (by decide)
  exact ⟨by decide, by decide, h.1, h.2⟩

/-- Helper: when the pattern matches nowhere in `s`, `re.sub` leaves `s`
unchanged. -/
theorem reSub_of_not_occurs (first : List Char) (lits : List (List Char)) :
    ∀ s : List Char, occursIn first lits s = false → reSub first lits s = s := by
  intro s
  induction s with
  | nil =>
      intro _
      rw [reSub]
      cases matchAt first lits [] <;> rfl
  | cons c rest ih =>
      intro h
      simp only [occursIn, Bool.or_eq_false_iff] at h
      obtain ⟨h1, h2⟩ := h
      have hm : matchAt first lits (c :: rest) = none := by
        cases hm : matchAt first lits (c :: rest)
        · rfl
        · rw [hm] at h1; simp at h1
      rw [reSub, hm, ih h2]

/-- C8: for a reply in which the expected address-prefix pattern does not
occur, both `_extract_return` variants return the raw reply unmodified
(and, being total functions, do not raise). -/
theorem c8_unmatched_reply (index command m p sid cmd2 reply reply2 : String)
    (h1 : occursIn index.data [(pyUpper command).data] reply.data = false)
    (h2 : occursIn (m ++ "/" ++ p).data
        [(pyUpper cmd2).data, ("[" ++ sid ++ "]").data] reply2.data = false) :
    extract_return index command reply = reply
    ∧ extract_return21 m p sid cmd2 reply2 = reply2 := by
  constructor
  · unfold extract_return
    rw [reSub_of_not_occurs _ _ _ h1]
  · unfold extract_return21
    rw [reSub_of_not_occurs _ _ _ h2]

/-- Helper: token characters (letters, digits, `_`, `/`) are not
whitespace. -/
theorem token_not_ws (c : Char) (h : isToken c = true) : isWs c = false := by
  cases hw : isWs c
  · rfl
  · exfalso
    simp only [isWs, Bool.or_eq_true, decide_eq_true_eq] at hw
    rcases hw with ((((h1 | h1) | h1) | h1) | h1) | h1 <;> subst h1 <;>
      exact absurd h (by decide)

/-- Helper: a list is a `isPrefixOf` any extension of itself. -/
theorem isPrefixOf_append_self (l t : List Char) : l.isPrefixOf (l ++ t) = true := by
  rw [List.isPrefixOf_iff_prefix]
  exact List.prefix_append l t

/-- Helper: `\s*` followed by a literal with a non-whitespace head
consumes exactly one space in front of that literal. -/
theorem wsStarLit_space_exact (c0 : Char) (C' tail : List Char)
    (h : isWs c0 = false) :
    wsStarLit (c0 :: C') (' ' :: ((c0 :: C') ++ tail)) = some tail := by
  have hpre : (c0 :: C').isPrefixOf ((c0 :: C') ++ tail) = true :=
    isPrefixOf_append_self (c0 :: C') tail
  have hdrop : ((c0 :: C') ++ tail).drop (c0 :: C').length = tail :=
    List.drop_left (c0 :: C') tail
  have hinner : wsStarLit (c0 :: C') ((c0 :: C') ++ tail) = some tail := by
    rw [show (c0 :: C') ++ tail = c0 :: (C' ++ tail) from rfl]
    rw [wsStarLit, h]
    simp only [Bool.false_eq_true, if_false]
    rw [show c0 :: (C' ++ tail) = (c0 :: C') ++ tail from rfl, hpre]
    simp only [if_true]
    rw [hdrop]
  rw [wsStarLit]
  rw [show isWs ' ' = true from rfl]
  simp only [if_true]
  rw [hinner]

/-- Helper: the single-segment pattern matches the head of a built
command, leaving the whitespace-stripped tail. -/
theorem matchAt_built1 (i C t : List Char) (c0 : Char) (C' : List Char)
    (hC : C = c0 :: C') (hc0 : isWs c0 = false) :
    matchAt i [C] (i ++ ' ' :: (C ++ t)) = some (t.dropWhile isWs) := by
  unfold matchAt
  rw [isPrefixOf_append_self, if_pos rfl, List.drop_left]
  unfold matchRest
  subst hC
  rw [wsStarLit_space_exact c0 C' t hc0]
  rfl

/-- Helper: `re.sub` on a string consisting of one leading match followed
by match-free text deletes exactly the leading match. -/
theorem reSub_single (first : List Char) (lits : List (List Char))
    (s r : List Char) (hne : s ≠ []) (hm : matchAt first lits s = some r)
    (hlen : r.length < s.length) (hocc : occursIn first lits r = false) :
    reSub first lits s = r := by
  obtain ⟨c, rest, rfl⟩ : ∃ c rest, s = c :: rest := by
    cases s with
    | nil => exact absurd rfl hne
    | cons c rest => exact ⟨c, rest, rfl⟩
  rw [reSub, hm]
  simp only [hlen, dif_pos]
  exact reSub_of_not_occurs first lits r hocc

/-- Helper: `dropWhile` never lengthens a list. -/
theorem length_dropWhile_le' (p : Char → Bool) :
    ∀ l : List Char, (l.dropWhile p).length ≤ l.length := by
  intro l
  induction l with
  | nil => simp
  | cons c l ih =>
      rw [List.dropWhile_cons]
      split
      · exact le_trans ih (by simp)
      · simp

/-- Helper: `foldl` of string append, in terms of character data. -/
theorem foldl_append_data :
    ∀ (l : List String) (acc : String),
      (l.foldl (· ++ ·) acc).data = acc.data ++ (l.map String.data).flatten
  | [], acc => by simp
  | s :: l, acc => by
      simp only [List.foldl_cons, List.map_cons, List.flatten_cons]
      rw [foldl_append_data l (acc ++ s)]
      simp [List.append_assoc]

/-- Helper: `String.join`, in terms of character data. -/
theorem join_data (l : List String) :
    (String.join l).data = (l.map String.data).flatten := by
  have h := foldl_append_data l ""
  simpa [String.join] using h

/-- Helper: the characters of a built single-segment command. -/
theorem build_data (index command : String) (args : List String) :
    (build_index_command index command args).data
      = index.data ++ ' ' :: (command.data ++ tailData args) := by
  have h1 : (build_index_command index command args).data
      = index.data ++ [' '] ++ command.data
          ++ (String.join (args.map (fun a => " " ++ a))).data := rfl
  rw [h1, join_data, List.map_map]
  have h2 : (String.data ∘ fun a => " " ++ a) = fun a : String => ' ' :: a.data := rfl
  rw [h2]
  show index.data ++ [' '] ++ command.data ++ tailData args = _
  simp [List.append_assoc]

/-- Helper: the argument characters are one space followed by the
space-joined argument tail. -/
theorem tailData_cons_eq :
    ∀ (a : String) (rest : List String),
      tailData (a :: rest) = ' ' :: (joined_tail (a :: rest)).data
  | a, [] => by simp [tailData, joined_tail]
  | a, b :: rest => by
      have ih := tailData_cons_eq b rest
      simp only [tailData, List.map_cons, List.flatten_cons] at ih ⊢
      rw [ih]
      show ' ' :: (a.data ++ ' ' :: (joined_tail (b :: rest)).data)
        = ' ' :: (a ++ " " ++ joined_tail (b :: rest)).data
      rw [show (a ++ " " ++ joined_tail (b :: rest)).data
        = a.data ++ [' '] ++ (joined_tail (b :: rest)).data from rfl]
      simp [List.append_assoc]

/-- Helper: stripping trailing `\s*` from the argument characters yields
exactly the space-joined argument tail, provided the first argument does
not itself start with whitespace. -/
theorem dropWhile_tailData (args : List String)
    (hargs : (args.all fun a =>
        match a.data with
        | [] => false
        | c :: _ => !isWs c) = true) :
    (tailData args).dropWhile isWs = (joined_tail args).data := by
  cases args with
  | nil => rfl
  | cons a rest =>
      have ha : (match a.data with
          | [] => false
          | c :: _ => !isWs c) = true := by
        have := List.all_eq_true.mp hargs a (List.mem_cons_self a rest)
        simpa using this
      obtain ⟨c, cs, hdata, hc⟩ : ∃ c cs, a.data = c :: cs ∧ isWs c = false := by
        cases hd : a.data with
        | nil => rw [hd] at ha; exact absurd ha (by decide)
        | cons c cs =>
            rw [hd] at ha
            exact ⟨c, cs, rfl, by simpa using ha⟩
      obtain ⟨tl, htl⟩ : ∃ tl, (joined_tail (a :: rest)).data = c :: tl := by
        cases rest with
        | nil => exact ⟨cs, hdata⟩
        | cons b rest' =>
            refine ⟨cs ++ [' '] ++ (joined_tail (b :: rest')).data, ?_⟩
            show (a ++ " " ++ joined_tail (b :: rest')).data = _
            rw [show (a ++ " " ++ joined_tail (b :: rest')).data
              = a.data ++ [' '] ++ (joined_tail (b :: rest')).data from rfl, hdata]
            simp [List.append_assoc]
      rw [tailData_cons_eq, List.dropWhile_cons]
      rw [show isWs ' ' = true from rfl, if_pos rfl]
      rw [htl, List.dropWhile_cons, hc]
      simp

/-- C1 counterexample: the stripping is not case-insensitive.  For the
lower-case command `foo` on index `7`, the pattern `7\s*FOO\s*` does not
match the built command `7 foo x`, so `extractValue` returns it
unchanged instead of the argument tail `x`. -/
theorem c1_counterexample :
    extract_return "7" "foo" (build_index_command "7" "foo" ["x"]) ≠ "x"
    ∧ extract_return "7" "foo" (build_index_command "7" "foo" ["x"]) = "7 foo x" := by
  have hb : build_index_command "7" "foo" ["x"] = "7 foo x" := by decide
  have h : occursIn "7".data [(pyUpper "foo").data] "7 foo x".data = false := by decide
  have he : extract_return "7" "foo" "7 foo x" = "7 foo x" := by
    unfold extract_return
    rw [reSub_of_not_occurs _ _ _ h]
  rw [hb]
  exact ⟨by rw [he]; decide, he⟩

/-- C1 (amended): for a non-empty single-segment index, a non-empty
command written in the upper-cased token form the device echoes (letters,
digits, underscores — so `command.upper()` is the command itself), and
arguments that do not start with whitespace and whose space-joined tail
does not itself contain the echoed prefix pattern, extracting from the
just-built command strips the `index command` prefix and yields exactly
the space-joined argument tail. -/
theorem c1_prefix_strip (index command : String) (args : List String)
    (hidx : index.data ≠ [])
    (hcmd : command.data ≠ [])
    (hcmdtok : ∀ ch ∈ command.data, isToken ch = true)
    (hupper : pyUpper command = command)
    (hargs : (args.all fun a =>
        match a.data with
        | [] => false
        | c :: _ => !isWs c) = true)
    (htail : occursIn index.data [(pyUpper command).data]
        (joined_tail args).data = false) :
    extract_return index command (build_index_command index command args)
      = joined_tail args := by
  unfold extract_return
  rw [hupper] at htail ⊢
  obtain ⟨c0, C', hC⟩ : ∃ c0 C', command.data = c0 :: C' := by
    cases h : command.data with
    | nil => exact absurd h hcmd
    | cons x xs => exact ⟨x, xs, rfl⟩
  have hc0 : isWs c0 = false :=
    token_not_ws c0 (hcmdtok c0 (by rw [hC]; exact List.mem_cons_self _ _))
  have hbuild := build_data index command args
  have hmatch : matchAt index.data [command.data]
      (build_index_command index command args).data
        = some ((tailData args).dropWhile isWs) := by
    rw [hbuild]
    exact matchAt_built1 index.data command.data (tailData args) c0 C' hC hc0
  rw [dropWhile_tailData args hargs] at hmatch
  have hjlen : (joined_tail args).data.length ≤ (tailData args).length := by
    rw [← dropWhile_tailData args hargs]
    exact length_dropWhile_le' isWs (tailData args)
  have hilen : 0 < index.data.length := List.length_pos.mpr hidx
  have hlen : (joined_tail args).data.length
      < (build_index_command index command args).data.length := by
    rw [hbuild]
    simp only [List.length_append, List.length_cons]
    omega
  have hne : (build_index_command index command args).data ≠ [] := by
    intro hx
    have := congrArg List.length hx
    rw [hbuild] at this
    simp only [List.length_append, List.length_cons, List.length_nil] at this
    omega
  rw [reSub_single index.data [command.data] _ _ hne hmatch hlen htail]

/-- C1 witness: index `7`, upper-case command `PS_RATE`, arguments
`10000 FRAMES` round-trip to exactly the argument tail. -/
theorem c1_prefix_strip_witness :
    extract_return "7" "PS_RATE"
        (build_index_command "7" "PS_RATE" ["10000", "FRAMES"])
      = joined_tail ["10000", "FRAMES"] :=
  c1_prefix_strip "7" "PS_RATE" ["10000", "FRAMES"] (by decide) (by decide)
    (by decide) (by decide) (by decide) (by decide)

/-- C8 witness: concrete malformed replies with no echoed prefix pass
through both variants unchanged. -/
theorem c8_unmatched_reply_witness :
    occursIn "7".data [(pyUpper "p_config").data] "hello world".data = false
    ∧ occursIn ("1" ++ "/" ++ "2").data
        [(pyUpper "ps_rate").data, ("[" ++ "3" ++ "]").data] "raw value".data = false
    ∧ extract_return "7" "p_config" "hello world" = "hello world"
    ∧ extract_return21 "1" "2" "3" "ps_rate" "raw value" = "raw value" := by
  have h := c8_unmatched_reply "7" "p_config" "1" "2" "3" "ps_rate"
    "hello world" "raw value" (by decide) (by decide)
  exact ⟨by decide, by decide, h.1, h.2⟩

/-- Helper: a single hex digit character is a hex character. -/
theorem hexChar_isHex (k : Nat) (h : k < 16) : isHexChar (hexChar k) = true := by
  interval_cases k <;> decide

/-- Helper: all characters of a hex numeral are hex characters. -/
theorem hexDigits_hex (n : Nat) : ∀ c ∈ hexDigits n, isHexChar c = true := by
  induction n using Nat.strong_induction_on with
  | _ n ih =>
      intro c hc
      rw [hexDigits] at hc
      split at hc
      · rename_i h
        simp only [List.mem_singleton] at hc
        subst hc
        exact hexChar_isHex n h
      · rename_i h
        rw [List.mem_append] at hc
        rcases hc with hc | hc
        · exact ih (n / 16) (Nat.div_lt_self (by omega) (by omega)) c hc
        · simp only [List.mem_singleton] at hc
          subst hc
          exact hexChar_isHex (n % 16) (Nat.mod_lt n (by omega))

/-- Helper: a number below `16 ^ k` has at most `k` hex digits. -/
theorem hexDigits_len_le :
    ∀ (k n : Nat), n < 16 ^ k → 0 < k → (hexDigits n).length ≤ k := by
  intro k
  induction k with
  | zero => intro n _ h0; omega
  | succ k ih =>
      intro n h _
      rw [hexDigits]
      split
      · simp
      · rename_i hn
        have hk : 0 < k := by
          rcases Nat.eq_zero_or_pos k with rfl | h1
          · simp at h; omega
          · exact h1
        have hdiv : n / 16 < 16 ^ k := by
          rw [Nat.div_lt_iff_lt_mul (by norm_num)]
          calc n < 16 ^ (k + 1) := h
            _ = 16 ^ k * 16 := by ring
        have := ih (n / 16) hdiv hk
        simp only [List.length_append, List.length_singleton]
        omega

/-- Helper: `'{:06x}'` of a number below `16 ^ 6` is exactly 6 characters. -/
theorem hex6_len (n : Nat) (h : n < 16 ^ 6) : (hex6 n).length = 6 := by
  have h1 : (hexDigits n).length ≤ 6 := hexDigits_len_le 6 n h (by norm_num)
  simp only [hex6, List.length_append, List.length_replicate]
  omega

/-- Helper: all characters of a padded hex offset are hex characters. -/
theorem hex6_hex (n : Nat) : ∀ c ∈ hex6 n, isHexChar c = true := by
  intro c hc
  rw [hex6, List.mem_append] at hc
  rcases hc with hc | hc
  · have := List.eq_of_mem_replicate hc
    subst this
    decide
  · exact hexDigits_hex n c hc

/-- Helper: hex characters are not newlines. -/
theorem isHexChar_ne_nl (c : Char) (h : isHexChar c = true) : c ≠ '\n' := by
  intro hc
  subst hc
  exact absurd h (by decide)

/-- Helper: the formatter distributes over append, with the running index
shifted by the length of the first part. -/
theorem format_aux_append :
    ∀ (l1 l2 : List Char) (c : Nat),
      format_packet_aux c (l1 ++ l2)
        = format_packet_aux c l1 ++ format_packet_aux (c + l1.length) l2 := by
  intro l1
  induction l1 with
  | nil => intro l2 c; simp [format_packet_aux]
  | cons b rest ih =>
      intro l2 c
      simp only [List.cons_append, format_packet_aux, List.length_cons,
        List.append_eq]
      rw [ih l2 (c + 1)]
      have h : c + 1 + rest.length = c + (rest.length + 1) := by omega
      rw [h]
      simp [List.append_assoc]

/-- Helper: the in-line formatter depends only on the parity of the
position. -/
theorem lineAux_parity :
    ∀ (l : List Char) (k k' : Nat), k % 2 = k' % 2 → lineAux k l = lineAux k' l := by
  intro l
  induction l with
  | nil => intros; rfl
  | cons b rest ih =>
      intro k k' h
      simp only [lineAux]
      rw [show (k % 2 == 0) = (k' % 2 == 0) from by rw [h],
        ih (k + 1) (k' + 1) (by omega)]

/-- Helper: inside one 32-character line (positions `1..31`), the
formatter emits no newline and coincides with the in-line formatter. -/
theorem format_aux_inner :
    ∀ (l : List Char), ∀ (k q : Nat), 1 ≤ k → k + l.length ≤ 32 →
      format_packet_aux (32 * q + k) l = lineAux k l := by
  intro l
  induction l with
  | nil => intros; rfl
  | cons b rest ih =>
      intro k q h1 h2
      simp only [List.length_cons] at h2
      have hk31 : k < 32 := by omega
      have hm32 : (32 * q + k) % 32 = k := by omega
      have hm2 : (32 * q + k) % 2 = k % 2 := by omega
      simp only [format_packet_aux, lineAux, hm32, hm2]
      have hk0 : (k == 0) = false := by simp; omega
      rw [hk0]
      simp only [Bool.false_eq_true, if_false]
      rw [show 32 * q + k + 1 = 32 * q + (k + 1) from by omega,
        ih (k + 1) q (by omega) (by omega)]

/-- Helper: the formatter equals its chunked restatement. -/
theorem format_aux_eq_dumpSpec :
    ∀ (n : Nat) (l : List Char), l.length ≤ n → ∀ q : Nat,
      format_packet_aux (32 * q) l = dumpSpec q l := by
  intro n
  induction n with
  | zero =>
      intro l hl q
      have : l = [] := List.eq_nil_of_length_eq_zero (by omega)
      subst this
      rw [dumpSpec]
      simp [format_packet_aux]
  | succ n ih =>
      intro l hl q
      cases l with
      | nil =>
          rw [dumpSpec]
          simp [format_packet_aux]
      | cons b rest =>
          rw [dumpSpec]
          rw [dif_neg (by simp)]
          have hsplit : rest = rest.take 31 ++ rest.drop 31 :=
            (List.take_append_drop 31 rest).symm
          have hmod : (32 * q) % 32 = 0 := by omega
          have hdiv : 32 * q / 2 = 16 * q := by omega
          simp only [format_packet_aux, hmod, hdiv]
          rw [show ((0 == 0) = true) from rfl]
          simp only [if_true]
          conv_lhs => rw [hsplit]
          rw [format_aux_append (rest.take 31) (rest.drop 31) (32 * q + 1)]
          rw [format_aux_inner (rest.take 31) 1 q (by omega)
            (by simp [List.length_take]; omega)]
          rw [show (b :: rest).take 32 = b :: rest.take 31 from rfl,
            show (b :: rest).drop 32 = rest.drop 31 from rfl]
          by_cases hr : rest.length ≤ 31
          · rw [List.drop_eq_nil_of_le hr]
            rw [show format_packet_aux (32 * q + 1 + (rest.take 31).length) [] = []
              from rfl]
            rw [dumpSpec]
            simp [dumpLine, List.append_assoc]
          · have htake : (rest.take 31).length = 31 := by
              simp [List.length_take]
              omega
            rw [htake, show 32 * q + 1 + 31 = 32 * (q + 1) from by omega]
            rw [ih (rest.drop 31) (by simp [List.length_drop] at hl ⊢; omega) (q + 1)]
            simp [dumpLine, List.append_assoc]

/-- Helper: splitting never returns an empty group list. -/
theorem splitNl_ne_nil : ∀ l : List Char, splitNl l ≠ [] := by
  intro l
  induction l with
  | nil => simp [splitNl]
  | cons c rest ih =>
      rw [splitNl]
      split
      · simp
      · cases h : splitNl rest <;> simp

/-- Helper: a newline-free prefix merges into the first group of the
split. -/
theorem splitNl_append_no_nl :
    ∀ (a b : List Char), (∀ c ∈ a, c ≠ '\n') →
      splitNl (a ++ b) = (a ++ (splitNl b).headI) :: (splitNl b).tail := by
  intro a
  induction a with
  | nil =>
      intro b _
      cases h : splitNl b with
      | nil => exact absurd h (splitNl_ne_nil b)
      | cons g gs => simp [h]
  | cons a0 a' ih =>
      intro b hnl
      have h0 : a0 ≠ '\n' := hnl a0 (List.mem_cons_self _ _)
      rw [List.cons_append, splitNl, if_neg h0]
      rw [ih b (fun c hc => hnl c (List.mem_cons_of_mem _ hc))]
      simp

/-- Helper: the in-line formatter only emits spaces and input characters. -/
theorem lineAux_mem :
    ∀ (l : List Char) (k : Nat) (c : Char), c ∈ lineAux k l → c = ' ' ∨ c ∈ l := by
  intro l
  induction l with
  | nil => intro k c hc; simp [lineAux] at hc
  | cons b rest ih =>
      intro k c hc
      simp only [lineAux, List.mem_append, List.mem_cons] at hc
      rcases hc with hc | hc | hc
      · left
        split at hc <;> simp at hc
        exact hc
      · right; simp [hc]
      · rcases ih (k + 1) c hc with h | h
        · left; exact h
        · right; simp [h]

/-- Helper: a dump line over hex characters contains no newline. -/
theorem dumpLine_no_nl (q : Nat) (chunk : List Char)
    (hhex : ∀ c ∈ chunk, isHexChar c = true) :
    ∀ c ∈ dumpLine q chunk, c ≠ '\n' := by
  intro c hc
  cases chunk with
  | nil => simp [dumpLine] at hc
  | cons b rest =>
      simp only [dumpLine, List.mem_append, List.mem_cons] at hc
      rcases hc with hc | hc | hc
      · exact isHexChar_ne_nl c (hex6_hex (16 * q) c hc)
      · subst hc; decide
      · rcases hc with hc | hc
        · exact isHexChar_ne_nl c
            (hhex c (by rw [hc]; exact List.mem_cons_self _ _))
        · rcases lineAux_mem rest 1 c hc with h | h
          · subst h; decide
          · exact isHexChar_ne_nl c (hhex c (List.mem_cons_of_mem _ h))

/-- Helper: a leading newline opens a fresh empty group. -/
theorem splitNl_cons_nl (rest : List Char) :
    splitNl ('\n' :: rest) = [] :: splitNl rest := by
  rw [splitNl]
  simp

/-- Helper: splitting the chunked dump yields one empty leading group and
one group per chunk. -/
theorem splitNl_dumpSpec :
    ∀ (n : Nat) (l : List Char), l.length ≤ n →
      (∀ c ∈ l, isHexChar c = true) → ∀ q : Nat,
      splitNl (dumpSpec q l) = [] :: specLines q l := by
  intro n
  induction n with
  | zero =>
      intro l hl _ q
      have : l = [] := List.eq_nil_of_length_eq_zero (by omega)
      subst this
      rw [dumpSpec, specLines]
      simp [splitNl]
  | succ n ih =>
      intro l hl hhex q
      cases l with
      | nil =>
          rw [dumpSpec, specLines]
          simp [splitNl]
      | cons b rest =>
          rw [dumpSpec, dif_neg (by simp), specLines, dif_neg (by simp)]
          rw [List.cons_append, splitNl_cons_nl]
          rw [splitNl_append_no_nl _ _
            (dumpLine_no_nl q ((b :: rest).take 32)
              (fun c hc => hhex c (List.take_subset 32 (b :: rest) hc)))]
          rw [ih ((b :: rest).drop 32)
            (by simp only [List.length_drop, List.length_cons] at hl ⊢; omega)
            (fun c hc => hhex c (List.drop_subset 32 (b :: rest) hc)) (q + 1)]
          simp

/-- Helper: the number of dump lines is the number of 32-character
chunks. -/
theorem specLines_length :
    ∀ (n : Nat) (l : List Char), l.length ≤ n → ∀ q : Nat,
      (specLines q l).length = (l.length + 31) / 32 := by
  intro n
  induction n with
  | zero =>
      intro l hl q
      have : l = [] := List.eq_nil_of_length_eq_zero (by omega)
      subst this
      rw [specLines]
      simp
  | succ n ih =>
      intro l hl q
      cases hL : l with
      | nil => rw [specLines]; simp
      | cons b rest =>
          subst hL
          rw [specLines, dif_neg (by simp)]
          rw [List.length_cons, ih ((b :: rest).drop 32)
            (by simp only [List.length_drop, List.length_cons] at hl ⊢; omega) (q + 1)]
          simp only [List.length_drop, List.length_cons]
          omega

/-- Helper: the `j`-th dump line is the line of the `j`-th 32-character
chunk. -/
theorem specLines_getD :
    ∀ (n : Nat) (l : List Char), l.length ≤ n → ∀ q j : Nat,
      j < (specLines q l).length →
      (specLines q l).getD j []
        = dumpLine (q + j) ((l.drop (32 * j)).take 32) := by
  intro n
  induction n with
  | zero =>
      intro l hl q j hj
      have : l = [] := List.eq_nil_of_length_eq_zero (by omega)
      subst this
      rw [specLines] at hj
      simp at hj
  | succ n ih =>
      intro l hl q j hj
      cases l with
      | nil =>
          rw [specLines] at hj
          simp at hj
      | cons b rest =>
          have hSL : specLines q (b :: rest)
              = dumpLine q ((b :: rest).take 32)
                :: specLines (q + 1) ((b :: rest).drop 32) := by
            rw [specLines, dif_neg (by simp)]
          rw [hSL] at hj ⊢
          cases j with
          | zero => simp
          | succ j =>
              simp only [List.getD_cons_succ]
              rw [ih ((b :: rest).drop 32)
                (by simp only [List.length_drop, List.length_cons] at hl ⊢; omega)
                (q + 1) j (by simpa using hj)]
              rw [List.drop_drop]
              have h1 : 32 + 32 * j = 32 * (j + 1) := by ring
              have h2 : q + 1 + j = q + (j + 1) := by omega
              rw [h1, h2]

/-- Helper: the body of one dump line is its byte pairs joined by
single spaces. -/
theorem cons_lineAux_joinPairs :
    ∀ (n : Nat) (rest : List Char) (b : Char), rest.length ≤ n →
      b :: lineAux 1 rest = joinPairs (pairs2 (b :: rest)) := by
  intro n
  induction n with
  | zero =>
      intro rest b h
      have : rest = [] := List.eq_nil_of_length_eq_zero (by omega)
      subst this
      rfl
  | succ n ih =>
      intro rest b h
      rcases rest with _ | ⟨c, _ | ⟨d, rest'⟩⟩
      · rfl
      · rfl
      · obtain ⟨p, ps, hp⟩ : ∃ p ps, pairs2 (d :: rest') = p :: ps := by
          cases rest' with
          | nil => exact ⟨[d], [], rfl⟩
          | cons e rest2 => exact ⟨[d, e], pairs2 rest2, rfl⟩
        have hih : d :: lineAux 1 rest' = joinPairs (pairs2 (d :: rest')) := by
          apply ih
          simp only [List.length_cons] at h
          omega
        calc b :: lineAux 1 (c :: d :: rest')
            = b :: c :: ' ' :: d :: lineAux 3 rest' := by
              simp [lineAux]
          _ = b :: c :: ' ' :: d :: lineAux 1 rest' := by
              rw [lineAux_parity rest' 3 1 (by omega)]
          _ = b :: c :: ' ' :: joinPairs (pairs2 (d :: rest')) := by rw [hih]
          _ = joinPairs (pairs2 (b :: c :: d :: rest')) := by
              rw [show pairs2 (b :: c :: d :: rest')
                = [b, c] :: pairs2 (d :: rest') from rfl, hp]
              rfl

/-- Helper: an even-length hex string decomposes into two-character
pairs. -/
theorem pairs2_even :
    ∀ (k : Nat) (l : List Char), l.length = 2 * k →
      (pairs2 l).length = k ∧ ∀ p ∈ pairs2 l, p.length = 2 := by
  intro k
  induction k with
  | zero =>
      intro l h
      have : l = [] := List.eq_nil_of_length_eq_zero (by omega)
      subst this
      exact ⟨rfl, by simp [pairs2]⟩
  | succ k ih =>
      intro l h
      rcases l with _ | ⟨a, _ | ⟨b, rest⟩⟩
      · simp at h
      · simp at h; omega
      · have hr : rest.length = 2 * k := by
          simp only [List.length_cons] at h
          omega
        obtain ⟨h1, h2⟩ := ih rest hr
        refine ⟨by simp [pairs2, h1], ?_⟩
        intro p hp
        rw [show pairs2 (a :: b :: rest) = [a, b] :: pairs2 rest from rfl] at hp
        rcases List.mem_cons.mp hp with hcp | hcp
        · subst hcp; rfl
        · exact h2 p hcp

/-- C7: for a raw hex payload of `N` bytes (`2 * N` hex characters, with
`N` within the 6-digit offset range): the formatted dump has exactly
`⌈N / 16⌉` lines after its leading newline; the `j`-th line is the
6-character zero-padded hex offset `16 * j` followed by a space and the
`j`-th 32-hex-character chunk rendered as space-separated byte pairs (so a
new line starts at every 32nd hex character); and every non-final line
consists of exactly 16 two-character byte pairs. -/
theorem c7_hex_dump (raw : String) (N : Nat)
    (hlen : raw.data.length = 2 * N) (hN : N ≤ 16 ^ 6)
    (hhex : ∀ c ∈ raw.data, isHexChar c = true) :
    ((splitNl (format_packet raw).data).tail).length = (N + 15) / 16
    ∧ (∀ j, j < ((splitNl (format_packet raw).data).tail).length →
        ((splitNl (format_packet raw).data).tail).getD j []
          = hex6 (16 * j)
              ++ ' ' :: joinPairs (pairs2 ((raw.data.drop (32 * j)).take 32))
        ∧ (hex6 (16 * j)).length = 6)
    ∧ (∀ j, j + 1 < ((splitNl (format_packet raw).data).tail).length →
        (pairs2 ((raw.data.drop (32 * j)).take 32)).length = 16
        ∧ ∀ p ∈ pairs2 ((raw.data.drop (32 * j)).take 32), p.length = 2) := by
  have hfmt : (format_packet raw).data = dumpSpec 0 raw.data := by
    have h := format_aux_eq_dumpSpec raw.data.length raw.data (le_refl _) 0
    simpa using h
  have hsplit : splitNl (format_packet raw).data = [] :: specLines 0 raw.data := by
    rw [hfmt]
    exact splitNl_dumpSpec raw.data.length raw.data (le_refl _) hhex 0
  have htail : (splitNl (format_packet raw).data).tail = specLines 0 raw.data := by
    rw [hsplit]
    rfl
  have hcount : (specLines 0 raw.data).length = (N + 15) / 16 := by
    rw [specLines_length raw.data.length raw.data (le_refl _) 0, hlen]
    omega
  refine ⟨by rw [htail, hcount], ?_, ?_⟩
  · intro j hj
    rw [htail] at hj ⊢
    have hj' : j < (N + 15) / 16 := by rw [← hcount]; exact hj
    have h16 : (16 : Nat) ^ 6 = 16777216 := by norm_num
    have hoff : 16 * j < 16 ^ 6 := by
      rw [h16]
      rw [h16] at hN
      omega
    constructor
    · rw [specLines_getD raw.data.length raw.data (le_refl _) 0 j hj,
        Nat.zero_add]
      have hchunklen : 0 < ((raw.data.drop (32 * j)).take 32).length := by
        simp only [List.length_take, List.length_drop, hlen]
        omega
      obtain ⟨b, rest, hbr⟩ :
          ∃ b rest, (raw.data.drop (32 * j)).take 32 = b :: rest := by
        cases hc : (raw.data.drop (32 * j)).take 32 with
        | nil => rw [hc] at hchunklen; simp at hchunklen
        | cons b rest => exact ⟨b, rest, rfl⟩
      rw [hbr]
      rw [show dumpLine j (b :: rest)
        = hex6 (16 * j) ++ ' ' :: b :: lineAux 1 rest from rfl]
      rw [cons_lineAux_joinPairs rest.length rest b (le_refl _)]
    · exact hex6_len (16 * j) hoff
  · intro j hj
    rw [htail, hcount] at hj
    have hchunk32 : ((raw.data.drop (32 * j)).take 32).length = 32 := by
      simp only [List.length_take, List.length_drop, hlen]
      omega
    exact pairs2_even 16 _ (by rw [hchunk32])

/-- C7 witness: an 18-byte packet formats to `⌈18 / 16⌉ = 2` offset-prefixed
lines. -/
theorem c7_hex_dump_witness :
    ((splitNl
        (format_packet "00112233445566778899aabbccddeeff0011").data).tail).length
      = (18 + 15) / 16 :=
  (c7_hex_dump "00112233445566778899aabbccddeeff0011" 18 (by decide)
    (by norm_num) (by decide)).1

end Xena
